import Mathlib

/-!
Shallow embedding of `src/frustrum_culling.cpp`: octree construction
(`Octree::Octree`, `Octree::BuildTree`) and frustum culling
(`Octree::FrustumCull`, `Octree::FrustumCullRecursive`,
`Octree::IntersectsFrustum`).

Geometric coordinates are modelled by exact rationals: `glm::vec3`
becomes `Vec3`, a `glm::vec4` frustum plane becomes `FrustumPlane`.
Octree nodes are identified by their child-index paths from the root
(`List ℕ`, each entry the octant index `x + y*2 + z*4` chosen at that
step), and the bounding box a node receives is recomputed along the
path exactly as `BuildTree` passes `childBoundingBox` down its
recursion.  `BuildTree`'s stopping test `depth == maxDepth` is modelled
by the remaining depth `maxDepth - depth` as the recursion fuel.
-/

structure Vec3 where
  x : ℚ
  y : ℚ
  z : ℚ
  deriving DecidableEq

structure BoundingBox where
  min : Vec3
  max : Vec3
  deriving DecidableEq

/-- A frustum plane, the `glm::vec4` `(x, y, z, w)` of the source. -/
structure FrustumPlane where
  x : ℚ
  y : ℚ
  z : ℚ
  w : ℚ
  deriving DecidableEq

/-- Componentwise `glm::min`. -/
def vecMin (a b : Vec3) : Vec3 := ⟨min a.x b.x, min a.y b.y, min a.z b.z⟩

/-- Componentwise `glm::max`. -/
def vecMax (a b : Vec3) : Vec3 := ⟨max a.x b.x, max a.y b.y, max a.z b.z⟩

def vecAdd (a b : Vec3) : Vec3 := ⟨a.x + b.x, a.y + b.y, a.z + b.z⟩

def vecSub (a b : Vec3) : Vec3 := ⟨a.x - b.x, a.y - b.y, a.z - b.z⟩

/-- Division of a vector by `2.0f`, used for the box center and extents. -/
def vecHalf (a : Vec3) : Vec3 := ⟨a.x / 2, a.y / 2, a.z / 2⟩

/-- Componentwise `≤` on 3D points. -/
def vecLe (a b : Vec3) : Prop := a.x ≤ b.x ∧ a.y ≤ b.y ∧ a.z ≤ b.z

instance (a b : Vec3) : Decidable (vecLe a b) := by
  unfold vecLe
  infer_instance

/-- `min ≤ v ≤ max` componentwise: the point lies in the box. -/
def containsPoint (bb : BoundingBox) (v : Vec3) : Prop :=
  vecLe bb.min v ∧ vecLe v bb.max

instance (bb : BoundingBox) (v : Vec3) : Decidable (containsPoint bb v) := by
  unfold containsPoint
  infer_instance

/-- One step of the constructor's bounding-box fold (lines 55–58):
`min = glm::min(min, vertex); max = glm::max(max, vertex)`. -/
def expandBox (bb : BoundingBox) (v : Vec3) : BoundingBox :=
  ⟨vecMin bb.min v, vecMax bb.max v⟩

/-- The scene bounding box computed by `Octree::Octree` (lines 52–58):
start from `vertices[0]` and fold `expandBox` over all vertices.  On an
empty vertex list the read `vertices[0]` is out of bounds, modelled as
`none`. -/
def sceneBoundingBox : List Vec3 → Option BoundingBox
  | [] => none
  | v :: vs => some ((v :: vs).foldl expandBox ⟨v, v⟩)

/-- Number of elements of `nodes_` when `BuildTree` is first invoked:
the constructor performs exactly one `nodes_.push_back({})` (line 61),
and `BuildTree` itself never appends to `nodes_`. -/
def octreeInitialNodeCount : ℕ := 1

/-- `center = (boundingBox.min + boundingBox.max) / 2.0f` (line 83). -/
def boxCenter (b : BoundingBox) : Vec3 := vecHalf (vecAdd b.min b.max)

/-- `extents = (boundingBox.max - boundingBox.min) / 2.0f` (line 84). -/
def boxExtents (b : BoundingBox) : Vec3 := vecHalf (vecSub b.max b.min)

/-- The `childBoundingBox` computed by `BuildTree` (lines 92–95) for the
bit combination `(x, y, z)`:
`min = center - extents + glm::vec3(x*extents.x, y*extents.y, z*extents.z)`,
`max = center + extents + glm::vec3(x*extents.x, y*extents.y, z*extents.z)`. -/
def childBoundingBox (b : BoundingBox) (x y z : ℕ) : BoundingBox :=
  ⟨vecAdd (vecSub (boxCenter b) (boxExtents b))
      ⟨x * (boxExtents b).x, y * (boxExtents b).y, z * (boxExtents b).z⟩,
   vecAdd (vecAdd (boxCenter b) (boxExtents b))
      ⟨x * (boxExtents b).x, y * (boxExtents b).y, z * (boxExtents b).z⟩⟩

/-- The box of the child with octant index `i = x + y*2 + z*4`
(line 91), recovering the loop bits from the index. -/
def childBoxAt (b : BoundingBox) (i : ℕ) : BoundingBox :=
  childBoundingBox b (i % 2) (i / 2 % 2) (i / 4 % 2)

/-- The bounding box the build recursion assigns to the node at a given
child-index path below a root with box `b`. -/
def boxAt : BoundingBox → List ℕ → BoundingBox
  | b, [] => b
  | b, i :: p => boxAt (childBoxAt b i) p

/-- The set of nodes created by the `BuildTree` recursion (lines
72–101) below a node with box `b` and `n` remaining levels
(`n = maxDepth - depth`), listed as child-index paths in the order the
`z`/`y`/`x` loops produce them (octant index `0, 1, ..., 7`).  At
`depth == maxDepth` (fuel `0`) the node is a leaf with no children. -/
def buildTree : BoundingBox → ℕ → List (List ℕ)
  | _, 0 => [[]]
  | b, n + 1 =>
    [] :: (List.range 8).flatMap fun i =>
      (buildTree (childBoxAt b i) n).map fun p => i :: p

/-- The `out` counter of `Octree::IntersectsFrustum` (lines 106–112):
six single-coordinate tests `plane.c * box.{min,max}.c + plane.w > 0`,
one per component of `min` and `max`. -/
def planeOutCount (p : FrustumPlane) (b : BoundingBox) : ℕ :=
  (if p.x * b.min.x + p.w > 0 then 1 else 0) +
  (if p.x * b.max.x + p.w > 0 then 1 else 0) +
  (if p.y * b.min.y + p.w > 0 then 1 else 0) +
  (if p.y * b.max.y + p.w > 0 then 1 else 0) +
  (if p.z * b.min.z + p.w > 0 then 1 else 0) +
  (if p.z * b.max.z + p.w > 0 then 1 else 0)

/-- `Octree::IntersectsFrustum` (lines 103–119): returns `false` as
soon as one plane reaches `out == 6`, otherwise `true`. -/
def intersectsFrustum (b : BoundingBox) (planes : List FrustumPlane) : Bool :=
  planes.all fun p => planeOutCount p b != 6

/-- `Octree::FrustumCullRecursive` (lines 121–133) on the node at path
`p` with box `b` and `n` remaining levels: if the box fails
`IntersectsFrustum` the traversal returns at once; otherwise the node
is appended (`visibleNodes_.push_back`) and the children are visited in
octant-index order.  The returned list is the sequence of appended
nodes, as paths relative to the current node. -/
def frustumCullRecursive (planes : List FrustumPlane) : BoundingBox → ℕ → List (List ℕ)
  | b, 0 => if intersectsFrustum b planes then [[]] else []
  | b, n + 1 =>
    if intersectsFrustum b planes then
      [] :: (List.range 8).flatMap fun i =>
        (frustumCullRecursive planes (childBoxAt b i) n).map fun p => i :: p
    else []

/-- `Octree::FrustumCull` (lines 65–70): `visibleNodes_.clear()`
discards the previous contents `prevVisible` entirely, then
`FrustumCullRecursive(0, frustumPlanes)` repopulates the list from the
root.  No validation of the plane count is performed. -/
def frustumCull (prevVisible : List (List ℕ)) (planes : List FrustumPlane)
    (b : BoundingBox) (n : ℕ) : List (List ℕ) :=
  frustumCullRecursive planes b n

/-- The plane equation `normal · v + offset` of the spec (§6): a point
is inside the plane when this value is positive. -/
def planeEval (p : FrustumPlane) (v : Vec3) : ℚ :=
  p.x * v.x + p.y * v.y + p.z * v.z + p.w

/-- The eight corners of an axis-aligned box. -/
def corners (b : BoundingBox) : List Vec3 :=
  [⟨b.min.x, b.min.y, b.min.z⟩, ⟨b.max.x, b.min.y, b.min.z⟩,
   ⟨b.min.x, b.max.y, b.min.z⟩, ⟨b.max.x, b.max.y, b.min.z⟩,
   ⟨b.min.x, b.min.y, b.max.z⟩, ⟨b.max.x, b.min.y, b.max.z⟩,
   ⟨b.min.x, b.max.y, b.max.z⟩, ⟨b.max.x, b.max.y, b.max.z⟩]

/-- Definition following the spec's words (§4.1): the sub-box of the
bit combination `(x, y, z)` spans
`[center - extents + offset, center + extents + offset]` where
`offset = (x, y, z) * extents` and `extents = (boxMax - boxMin)/2`. -/
def specChildBox (b : BoundingBox) (x y z : ℕ) : BoundingBox :=
  let c := vecHalf (vecAdd b.min b.max)
  let e := vecHalf (vecSub b.max b.min)
  let o : Vec3 := ⟨x * e.x, y * e.y, z * e.z⟩
  ⟨vecAdd (vecSub c e) o, vecAdd (vecAdd c e) o⟩

/-- The node indices `BuildTree` reads from `nodes_` (lines 73 and 97):
`nodes_[nodeIndex]` at entry, then the recursive calls
`BuildTree(nodeIndex + childIndex, depth + 1, ...)` for
`childIndex = 0, ..., 7`; the second argument is the remaining depth. -/
def buildTreeAccesses : ℕ → ℕ → List ℕ
  | nodeIndex, 0 => [nodeIndex]
  | nodeIndex, n + 1 =>
    nodeIndex :: (List.range 8).flatMap fun i => buildTreeAccesses (nodeIndex + i) n

/-- The unit cube of the spec's concrete scenario (§8). -/
def unitBox : BoundingBox := ⟨⟨0, 0, 0⟩, ⟨1, 1, 1⟩⟩

/-- A box whose corners are all strictly inside the plane
`(1,1,1,-1)` under the spec's positive-is-inside convention. -/
def insideBox : BoundingBox := ⟨⟨2, 2, 2⟩, ⟨3, 3, 3⟩⟩

/-- Six copies of the plane `(1, 1, 1, -1)`. -/
def insidePlanes : List FrustumPlane := List.replicate 6 ⟨1, 1, 1, -1⟩

/-- A single plane for which the unit cube fails `IntersectsFrustum`. -/
def outPlanes : List FrustumPlane := [⟨1, 1, 1, 100⟩]

/-- Claim C1: the culling test discards `insideBox` against
`insidePlanes` (all six single-coordinate tests are positive, so
`out == 6` and `IntersectsFrustum` returns `false`), yet every one of
the box's eight corners evaluates strictly positive under every plane —
strictly inside under the spec's sign convention (§6), so no plane has
all eight corners strictly outside and the claim requires the node to
be kept and descended into.  The code never evaluates the plane at the
corners: it tests single coordinates of `min` and `max` against single
plane components, contradicting the file's own step 3 comment
("testing the six planes of the view frustum against the eight
vertices of the bounding box"). -/
theorem intersectsFrustum_ignores_corners :
    intersectsFrustum insideBox insidePlanes = false ∧
    (insidePlanes.all fun p => (corners insideBox).all fun c => decide (0 < planeEval p c)) = true := by
  norm_num [intersectsFrustum, insidePlanes, insideBox, corners, planeOutCount, planeEval,
    List.replicate]

/-- Claim C3: on the unit cube the build gives child 0 the box
`[(0,0,0),(1,1,1)]` (the whole parent) and child 7 the box
`[(1/2,1/2,1/2),(3/2,3/2,3/2)]` (extending past the parent), not the
octants `[(0,0,0),(1/2,1/2,1/2)]` and `[(1/2,1/2,1/2),(1,1,1)]` the
claim states: `childBoundingBox.max = center + extents + offset` makes
every child the size of its parent, so the eight children overlap and
do not partition the parent box. -/
theorem buildTree_children_not_octants :
    boxAt unitBox [0] = ⟨⟨0, 0, 0⟩, ⟨1, 1, 1⟩⟩ ∧
    boxAt unitBox [7] = ⟨⟨1/2, 1/2, 1/2⟩, ⟨3/2, 3/2, 3/2⟩⟩ ∧
    boxAt unitBox [0] ≠ ⟨⟨0, 0, 0⟩, ⟨1/2, 1/2, 1/2⟩⟩ ∧
    boxAt unitBox [7] ≠ ⟨⟨1/2, 1/2, 1/2⟩, ⟨1, 1, 1⟩⟩ := by
  norm_num [boxAt, childBoxAt, childBoundingBox, boxCenter, boxExtents, unitBox,
    vecAdd, vecSub, vecHalf]

/-- Claim C4 (counterexample): culling with seven planes — a plane
count other than six — is not rejected: `FrustumCull` runs normally
and produces the visible set `[root]`, not an `InvalidInput` failure
with no result. -/
theorem frustumCull_wrong_plane_count_runs :
    frustumCull [] (List.replicate 7 ⟨0, 0, 0, 0⟩) unitBox 0 = [[]] := by
  norm_num [frustumCull, frustumCullRecursive, intersectsFrustum, planeOutCount, unitBox,
    List.replicate]

/-- Claim C10: the constructor leaves exactly one element in `nodes_`,
and already at `maxDepth = 1` the recursion `BuildTree(0 + childIndex,
...)` reads index `7` of `nodes_` — out of bounds, since `nodes_` holds
one element and `BuildTree` never appends to it. -/
theorem buildTree_arena_out_of_bounds :
    octreeInitialNodeCount = 1 ∧
    7 ∈ buildTreeAccesses 0 1 ∧
    octreeInitialNodeCount ≤ 7 := by
  decide

/-- Claim C2: the child created at octant index `x + y*2 + z*4` by the
`z`/`y`/`x` subdivision loops receives exactly the box the formula
`[center - extents + offset, center + extents + offset]`,
`offset = (x, y, z) * extents`, prescribes.  (Whether those boxes are
octants of the parent is a separate question, settled with claim C3.) -/
theorem buildTree_child_box (b : BoundingBox) (x y z : ℕ)
    (hx : x < 2) (hy : y < 2) (hz : z < 2) :
    boxAt b [x + y * 2 + z * 4] = specChildBox b x y z := by
  interval_cases x <;> interval_cases y <;> interval_cases z <;> rfl

/-- Witness for claim C2 at `(x, y, z) = (1, 0, 1)`, octant index `5`. -/
theorem buildTree_child_box_witness :
    (1 < 2 ∧ 0 < 2 ∧ 1 < 2) ∧
    boxAt unitBox [1 + 0 * 2 + 1 * 4] = specChildBox unitBox 1 0 1 :=
  ⟨⟨by decide, by decide, by decide⟩,
    buildTree_child_box unitBox 1 0 1 (by decide) (by decide) (by decide)⟩

/-- Claim C9: the result of `FrustumCull` is independent of the
previous contents of `visibleNodes_` (the method clears the list
before repopulating it), and a second call with the same frustum on
the same index returns the identical list, contents and order. -/
theorem frustumCull_idempotent (v w : List (List ℕ)) (planes : List FrustumPlane)
    (b : BoundingBox) (n : ℕ) :
    frustumCull v planes b n = frustumCull w planes b n ∧
    frustumCull (frustumCull v planes b n) planes b n = frustumCull v planes b n :=
  ⟨rfl, rfl⟩

/-- With an empty plane list every `IntersectsFrustum` test passes
vacuously, so the culling recursion visits and appends every node of
the build recursion. -/
theorem cull_empty_planes (n : ℕ) (b : BoundingBox) :
    frustumCullRecursive [] b n = buildTree b n := by
  induction n generalizing b with
  | zero => simp [frustumCullRecursive, buildTree, intersectsFrustum]
  | succ n ih => simp [frustumCullRecursive, buildTree, intersectsFrustum, ih]

/-- Claim C4 (amended): no precondition is validated.  The constructor
reads `vertices[0]` unconditionally, so an empty point set is an
out-of-bounds access (modelled `none`), not a reported `InvalidInput`;
and `FrustumCull` accepts any number of planes — with zero planes it
runs normally and returns every node of the tree.  (A negative
`maxDepth` is likewise never rejected: `depth == maxDepth` is then
never reached and the subdivision recursion never stops.) -/
theorem no_input_validation :
    sceneBoundingBox [] = none ∧
    ∀ (v : List (List ℕ)) (b : BoundingBox) (n : ℕ),
      frustumCull v [] b n = buildTree b n :=
  ⟨rfl, fun _ b n => cull_empty_planes n b⟩

/-- Folding `expandBox` over any list preserves containment of a point
already inside the accumulator box. -/
theorem foldl_expandBox_preserves (l : List Vec3) (bb : BoundingBox) (w : Vec3)
    (h : containsPoint bb w) : containsPoint (l.foldl expandBox bb) w := by
  induction l generalizing bb with
  | nil => exact h
  | cons a l ih =>
    refine ih (expandBox bb a) ?_
    obtain ⟨⟨h1, h2, h3⟩, ⟨h4, h5, h6⟩⟩ := h
    exact ⟨⟨le_trans (min_le_left _ _) h1, le_trans (min_le_left _ _) h2,
            le_trans (min_le_left _ _) h3⟩,
          ⟨le_trans h4 (le_max_left _ _), le_trans h5 (le_max_left _ _),
            le_trans h6 (le_max_left _ _)⟩⟩

/-- Folding `expandBox` over a list yields a box containing every
member of the list. -/
theorem foldl_expandBox_mem (l : List Vec3) (bb : BoundingBox) (v : Vec3)
    (hv : v ∈ l) : containsPoint (l.foldl expandBox bb) v := by
  induction l generalizing bb with
  | nil => cases hv
  | cons a l ih =>
    rcases List.mem_cons.mp hv with rfl | hv'
    · refine foldl_expandBox_preserves l (expandBox bb v) v ?_
      exact ⟨⟨min_le_right _ _, min_le_right _ _, min_le_right _ _⟩,
             ⟨le_max_right _ _, le_max_right _ _, le_max_right _ _⟩⟩
    · exact ih (expandBox bb a) hv'

/-- Claim C6: the scene bounding box computed by the constructor
contains every input vertex componentwise; the root box of the tree is
exactly this box, for every `maxDepth`. -/
theorem sceneBoundingBox_contains (vs : List Vec3) (bb : BoundingBox) (v : Vec3)
    (hbb : sceneBoundingBox vs = some bb) (hv : v ∈ vs) : containsPoint bb v := by
  cases vs with
  | nil => cases hbb
  | cons v0 tl =>
    have hbb' : (v0 :: tl).foldl expandBox ⟨v0, v0⟩ = bb := by
      simpa [sceneBoundingBox] using hbb
    exact hbb' ▸ foldl_expandBox_mem (v0 :: tl) ⟨v0, v0⟩ v hv

/-- Witness for claim C6: the box of the two points `(0,0,0)` and
`(1,2,3)` contains `(1,2,3)`. -/
theorem sceneBoundingBox_contains_witness :
    sceneBoundingBox [⟨0, 0, 0⟩, ⟨1, 2, 3⟩] = some ⟨⟨0, 0, 0⟩, ⟨1, 2, 3⟩⟩ ∧
    containsPoint ⟨⟨0, 0, 0⟩, ⟨1, 2, 3⟩⟩ ⟨1, 2, 3⟩ :=
  ⟨by norm_num [sceneBoundingBox, expandBox, vecMin, vecMax],
    sceneBoundingBox_contains [⟨0, 0, 0⟩, ⟨1, 2, 3⟩] ⟨⟨0, 0, 0⟩, ⟨1, 2, 3⟩⟩ ⟨1, 2, 3⟩
      (by norm_num [sceneBoundingBox, expandBox, vecMin, vecMax]) (by simp)⟩

/-- The list of node paths produced by the build recursion does not
depend on the box being subdivided, only on the remaining depth. -/
theorem buildTree_box_irrel (n : ℕ) (b b' : BoundingBox) :
    buildTree b n = buildTree b' n := by
  induction n generalizing b b' with
  | zero => rfl
  | succ n ih =>
    simp only [buildTree]
    exact congrArg _ (List.flatMap_congr fun i _ =>
      congrArg _ (ih (childBoxAt b i) (childBoxAt b' i)))

/-- Counting nodes: each level multiplies the node count by eight and
adds the current node, so `7 * count + 1 = 8 ^ (n + 1)`. -/
theorem buildTree_length (n : ℕ) (b : BoundingBox) :
    7 * (buildTree b n).length + 1 = 8 ^ (n + 1) := by
  induction n generalizing b with
  | zero => rfl
  | succ n ih =>
    have hmap : List.map
        (List.length ∘ fun i => (buildTree (childBoxAt b i) n).map fun p => i :: p)
        (List.range 8) = List.replicate 8 (buildTree b n).length := by
      rw [show (8 : ℕ) = (List.range 8).length from (List.length_range 8).symm, ← List.map_const']
      exact List.map_congr_left fun i _ => by
        simp only [Function.comp, List.length_map]
        rw [buildTree_box_irrel n (childBoxAt b i) b]
    have hlen : (buildTree b (n + 1)).length = 1 + 8 * (buildTree b n).length := by
      simp only [buildTree, List.length_cons, List.length_flatMap, hmap, List.sum_replicate,
        smul_eq_mul]
      omega
    have h8 : (8 : ℕ) ^ (n + 1 + 1) = 8 * 8 ^ (n + 1) := by
      rw [pow_succ]
      ring
    rw [hlen, h8, ← ih b]
    ring

/-- Counting leaves: paths of full remaining depth double three times
per level, so there are `8 ^ n` of them. -/
theorem buildTree_leaf_count (n : ℕ) (b : BoundingBox) :
    (buildTree b n).countP (fun p => decide (p.length = n)) = 8 ^ n := by
  induction n generalizing b with
  | zero => rfl
  | succ n ih =>
    have hflat : ∀ (l : List ℕ),
        (l.flatMap fun i => (buildTree (childBoxAt b i) n).map fun p => i :: p).countP
            (fun p => decide (p.length = n + 1)) =
          l.length * 8 ^ n := by
      intro l
      induction l with
      | nil => simp
      | cons a l ihl =>
        rw [List.flatMap_cons, List.countP_append, ihl, List.countP_map]
        have hfun : ((fun p : List ℕ => decide (p.length = n + 1)) ∘ fun p => a :: p)
            = fun p : List ℕ => decide (p.length = n) := by
          funext p
          simp only [Function.comp, List.length_cons, decide_eq_decide]
          omega
        have hcomp : (buildTree (childBoxAt b a) n).countP
            ((fun p => decide (p.length = n + 1)) ∘ fun p => a :: p) = 8 ^ n := by
          rw [hfun]
          exact ih (childBoxAt b a)
        rw [hcomp, List.length_cons]
        ring
    simp only [buildTree, List.countP_cons]
    rw [hflat (List.range 8), List.length_range]
    norm_num [pow_succ]
    ring

/-- Claim C5: building from any non-empty point set with remaining
depth `0` yields the single root node; with depth `d` the build
recursion creates exactly `8 ^ d` leaves (nodes at full depth, which
get no children) and `(8 ^ (d + 1) - 1) / 7` nodes in total. -/
theorem buildTree_node_counts (vs : List Vec3) (bb : BoundingBox) (d : ℕ)
    (hbb : sceneBoundingBox vs = some bb) :
    buildTree bb 0 = [[]] ∧
    (buildTree bb d).countP (fun p => decide (p.length = d)) = 8 ^ d ∧
    (buildTree bb d).length = (8 ^ (d + 1) - 1) / 7 := by
  refine ⟨rfl, buildTree_leaf_count d bb, ?_⟩
  have h := buildTree_length d bb
  generalize hL : (buildTree bb d).length = L at h ⊢
  generalize hA : (8 : ℕ) ^ (d + 1) = A at h ⊢
  omega

/-- Witness for claim C5 on the single point `(0,0,0)` at depth `1`:
nine nodes in total, eight of them leaves. -/
theorem buildTree_node_counts_witness :
    sceneBoundingBox [⟨0, 0, 0⟩] = some ⟨⟨0, 0, 0⟩, ⟨0, 0, 0⟩⟩ ∧
    (buildTree ⟨⟨0, 0, 0⟩, ⟨0, 0, 0⟩⟩ 1).countP (fun p => decide (p.length = 1)) = 8 ^ 1 ∧
    (buildTree ⟨⟨0, 0, 0⟩, ⟨0, 0, 0⟩⟩ 1).length = (8 ^ 2 - 1) / 7 :=
  ⟨by norm_num [sceneBoundingBox, expandBox, vecMin, vecMax],
    (buildTree_node_counts [⟨0, 0, 0⟩] ⟨⟨0, 0, 0⟩, ⟨0, 0, 0⟩⟩ 1
      (by norm_num [sceneBoundingBox, expandBox, vecMin, vecMax])).2.1,
    (buildTree_node_counts [⟨0, 0, 0⟩] ⟨⟨0, 0, 0⟩, ⟨0, 0, 0⟩⟩ 1
      (by norm_num [sceneBoundingBox, expandBox, vecMin, vecMax])).2.2⟩

/-- A flatMap of pointwise sublists is a sublist. -/
theorem flatMap_sublist_of_forall {α β : Type} (l : List α) (f g : α → List β)
    (h : ∀ a ∈ l, (f a).Sublist (g a)) : (l.flatMap f).Sublist (l.flatMap g) := by
  induction l with
  | nil => exact List.Sublist.refl _
  | cons a l ih =>
    rw [List.flatMap_cons, List.flatMap_cons]
    exact (h a (List.mem_cons_self a l)).append
      (ih fun x hx => h x (List.mem_cons_of_mem a hx))

/-- The culling traversal visits nodes in the order the build recursion
lists them: its output is a sublist of the build's pre-order node
list. -/
theorem cull_sublist_buildTree (planes : List FrustumPlane) (n : ℕ) (b : BoundingBox) :
    (frustumCullRecursive planes b n).Sublist (buildTree b n) := by
  induction n generalizing b with
  | zero =>
    cases hc : intersectsFrustum b planes <;>
      simp [frustumCullRecursive, buildTree, hc]
  | succ n ih =>
    cases hc : intersectsFrustum b planes with
    | false => simp [frustumCullRecursive, hc]
    | true =>
      simp only [frustumCullRecursive, buildTree, hc, if_true]
      exact (flatMap_sublist_of_forall _ _ _ fun i _ =>
        (ih (childBoxAt b i)).map _).cons₂ _

/-- Every ancestor of a node in the culling output is itself in the
culling output: the traversal only reaches a node through its visible
ancestors. -/
theorem cull_ancestor_closed (planes : List FrustumPlane) (n : ℕ) (b : BoundingBox)
    (r : List ℕ) (hr : r ∈ frustumCullRecursive planes b n) (q : List ℕ) (hq : q <+: r) :
    q ∈ frustumCullRecursive planes b n := by
  induction n generalizing b r q with
  | zero =>
    cases hc : intersectsFrustum b planes <;> rw [frustumCullRecursive] at hr ⊢ <;>
        simp only [hc, if_true, if_false] at hr ⊢
    · cases hr
    · rw [List.mem_singleton] at hr
      subst hr
      obtain ⟨t, ht⟩ := hq
      have := List.append_eq_nil.mp ht
      simp [this.1]
  | succ n ih =>
    cases hc : intersectsFrustum b planes with
    | false =>
      rw [frustumCullRecursive] at hr
      simp only [hc, if_false] at hr
      cases hr
    | true =>
      rw [frustumCullRecursive] at hr ⊢
      simp only [hc, if_true] at hr ⊢
      rcases List.mem_cons.mp hr with rfl | hr'
      · obtain ⟨t, ht⟩ := hq
        have := List.append_eq_nil.mp ht
        simp [this.1]
      · obtain ⟨i, hi, hmap⟩ := List.mem_flatMap.mp hr'
        obtain ⟨r', hr'', rfl⟩ := List.mem_map.mp hmap
        cases q with
        | nil => exact List.mem_cons_self _ _
        | cons j q' =>
          obtain ⟨t, ht⟩ := hq
          rw [List.cons_append] at ht
          injection ht with hji hqt
          subst hji
          refine List.mem_cons_of_mem _ (List.mem_flatMap.mpr ⟨j, hi, List.mem_map.mpr
            ⟨q', ?_, rfl⟩⟩)
          exact ih (childBoxAt b j) r' hr'' q' ⟨t, hqt⟩

/-- Claim C7: the VisibleSet is in pre-order.  Its sequence is a
sublist of the build's pre-order enumeration `buildTree` (parent
listed before its subtree, children in increasing octant-index order —
`x` bit fastest, then `y`, then `z`, exactly the `z`/`y`/`x` loop
order of the build), and every ancestor of a listed node is listed,
so each visible parent appears before its visible children. -/
theorem frustumCull_preorder (planes : List FrustumPlane) (b : BoundingBox) (n : ℕ) :
    (frustumCullRecursive planes b n).Sublist (buildTree b n) ∧
    ∀ r ∈ frustumCullRecursive planes b n, ∀ q, q <+: r →
      q ∈ frustumCullRecursive planes b n :=
  ⟨cull_sublist_buildTree planes n b,
    fun r hr q hq => cull_ancestor_closed planes n b r hr q hq⟩

/-- Witness for claim C7 with an empty plane list on the unit cube at
depth `1`: node `[3]` is visible, its ancestor `[]` (the root) is
visible too. -/
theorem frustumCull_preorder_witness :
    (frustumCullRecursive [] unitBox 1).Sublist (buildTree unitBox 1) ∧
    [3] ∈ frustumCullRecursive [] unitBox 1 ∧
    ([] : List ℕ) <+: [3] ∧
    ([] : List ℕ) ∈ frustumCullRecursive [] unitBox 1 :=
  ⟨(frustumCull_preorder [] unitBox 1).1,
    by rw [cull_empty_planes]; decide,
    ⟨[3], rfl⟩,
    (frustumCull_preorder [] unitBox 1).2 [3] (by rw [cull_empty_planes]; decide) []
      ⟨[3], rfl⟩⟩

/-- Claim C8: if the node at path `q` fails the culling test (its box
is classified fully outside), then no proper descendant of `q` ever
appears in the VisibleSet: the traversal returns before descending. -/
theorem frustumCull_discard_subtree (planes : List FrustumPlane) (b : BoundingBox) (n : ℕ)
    (q r : List ℕ) (hq : intersectsFrustum (boxAt b q) planes = false)
    (hpre : q <+: r) (hne : q ≠ r) :
    r ∉ frustumCullRecursive planes b n := by
  induction q generalizing b n r with
  | nil =>
    simp only [boxAt] at hq
    cases n <;> rw [frustumCullRecursive] <;> simp [hq]
  | cons i q' ih =>
    obtain ⟨t, ht⟩ := hpre
    rw [List.cons_append] at ht
    subst ht
    have ht' : t ≠ [] := by
      intro h
      subst h
      simp at hne
    have hne' : q' ≠ q' ++ t := fun h => ht' (List.self_eq_append_right.mp h)
    simp only [boxAt] at hq
    cases n with
    | zero =>
      cases hc : intersectsFrustum b planes <;> rw [frustumCullRecursive] <;> simp [hc]
    | succ n =>
      cases hc : intersectsFrustum b planes with
      | false =>
        rw [frustumCullRecursive]
        simp [hc]
      | true =>
        rw [frustumCullRecursive]
        simp only [hc, if_true]
        intro hmem
        rcases List.mem_cons.mp hmem with heq | hmem'
        · cases heq
        · obtain ⟨j, _, hmap⟩ := List.mem_flatMap.mp hmem'
          obtain ⟨r', hr', heq⟩ := List.mem_map.mp hmap
          injection heq with hji hrt
          subst hji
          subst hrt
          exact ih (childBoxAt b j) n (q' ++ t) hq ⟨t, rfl⟩ hne' hr'

/-- Witness for claim C8: against `outPlanes` the unit-cube root is
fully outside, and indeed child `[0]` is not in the culling output. -/
theorem frustumCull_discard_subtree_witness :
    intersectsFrustum (boxAt unitBox []) outPlanes = false ∧
    ([] : List ℕ) <+: [0] ∧
    ([] : List ℕ) ≠ [0] ∧
    [0] ∉ frustumCullRecursive outPlanes unitBox 1 :=
  ⟨by norm_num [boxAt, intersectsFrustum, outPlanes, planeOutCount, unitBox],
    ⟨[0], rfl⟩,
    by decide,
    frustumCull_discard_subtree outPlanes unitBox 1 [] [0]
      (by norm_num [boxAt, intersectsFrustum, outPlanes, planeOutCount, unitBox])
      ⟨[0], rfl⟩ (by decide)⟩
